import Mathlib

/-!
Verification of the cs2-reddit-poster pipeline.

Shallow embedding of the core of `src/cs2_poster`:
* `state_manager.py` — JSON-persisted application state (a flat dict of
  string keys to integers as the application produces it),
* `steam_client.py` — parsing and selection of Steam announcement events,
* `main.py` — the per-cycle polling/posting loop,
* `reddit_client.py` — post-title formatting and the BBCode→Markdown
  line-oriented post-pass.

Strings are modelled as `List Char` wherever line/character processing
matters so that every function is structurally recursive and evaluates by
`decide`/`rfl`.
-/

namespace CS2Poster

/-! ## JSON subset: what `json.dump(state, f, indent=4)` writes and
`json.load` reads back, for flat objects mapping strings to integers
(the only shape of state this application constructs). -/

/-- Application state, as in `state_manager.py`: a JSON object used as a
flat dict from string keys to integer values (insertion-ordered, as
Python dicts are).  Modelled as an association list. -/
abbrev StateObj := List (String × Int)

/-- `STATE_KEY_LAST_EVENT_POSTTIME` from `state_manager.py`. -/
def STATE_KEY : String := "last_processed_event_posttime"

/-- JSON whitespace characters (RFC 8259, as accepted by `json.load`). -/
def isJsonWs (c : Char) : Bool := c = ' ' || c = '\t' || c = '\n' || c = '\r'

/-- ASCII digit test. -/
def isDigitCh (c : Char) : Bool := 48 ≤ c.toNat && c.toNat ≤ 57

/-- The decimal digit character for `d < 10` (clamped at `'9'`). -/
def digitChar : Nat → Char
  | 0 => '0' | 1 => '1' | 2 => '2' | 3 => '3' | 4 => '4'
  | 5 => '5' | 6 => '6' | 7 => '7' | 8 => '8' | _ => '9'

/-- Numeric value of a digit character. -/
def digitVal (c : Char) : Nat := c.toNat - 48

/-- Big-endian decimal digits of `n` (empty for `0`), with explicit fuel so
that the recursion is structural. -/
def natDigitsAux : Nat → Nat → List Char
  | 0, _ => []
  | fuel + 1, n => if n = 0 then [] else natDigitsAux fuel (n / 10) ++ [digitChar (n % 10)]

/-- Decimal rendering of a natural number, as Python's `str`/`json.dump`. -/
def renderNat (n : Nat) : List Char := if n = 0 then ['0'] else natDigitsAux n n

/-- Decimal rendering of an integer, as `json.dump` writes it. -/
def renderInt : Int → List Char
  | Int.ofNat n => renderNat n
  | Int.negSucc m => '-' :: renderNat (m + 1)

/-- One `indent=4` object member: `    "key": value`. -/
def renderEntry (e : String × Int) : List Char :=
  ' ' :: ' ' :: ' ' :: ' ' :: '"' :: (e.1.data ++ '"' :: ':' :: ' ' :: renderInt e.2)

/-- Join with the `",\n"` separator `json.dump(..., indent=4)` uses. -/
def joinCommaNl : List (List Char) → List Char
  | [] => []
  | [x] => x
  | x :: xs => x ++ ',' :: '\n' :: joinCommaNl xs

/-- The exact text `json.dump(state, f, indent=4)` produces for a flat
string→int object. -/
def renderState (s : StateObj) : List Char :=
  match s with
  | [] => ['{', '}']
  | _ => '{' :: '\n' :: (joinCommaNl (s.map renderEntry) ++ '\n' :: '}' :: [])

/-- Drop leading JSON whitespace. -/
def skipWs : List Char → List Char
  | [] => []
  | c :: cs => if isJsonWs c then skipWs cs else c :: cs

/-- Body of a JSON string after the opening quote.  Escape sequences are
not modelled (none are produced by `renderState` for the keys the
application uses); an escape or an unterminated string fails. -/
def parseStringBody : List Char → Option (List Char × List Char)
  | [] => none
  | c :: cs =>
    if c = '"' then some ([], cs)
    else if c = '\\' then none
    else (parseStringBody cs).map (fun p => (c :: p.1, p.2))

/-- A JSON string literal. -/
def parseJString : List Char → Option (List Char × List Char)
  | [] => none
  | c :: cs => if c = '"' then parseStringBody cs else none

/-- Greedily consume decimal digits, accumulating their value. -/
def parseNatAux : List Char → Nat → Nat × List Char
  | [], acc => (acc, [])
  | c :: cs, acc => if isDigitCh c then parseNatAux cs (acc * 10 + digitVal c) else (acc, c :: cs)

/-- At least one decimal digit. -/
def parseNatPart : List Char → Option (Nat × List Char)
  | [] => none
  | c :: cs => if isDigitCh c then some (parseNatAux (c :: cs) 0) else none

/-- A JSON integer (optional minus sign, then digits). -/
def parseJInt : List Char → Option (Int × List Char)
  | [] => none
  | c :: cs =>
    if c = '-' then (parseNatPart cs).map (fun p => (-(p.1 : Int), p.2))
    else (parseNatPart (c :: cs)).map (fun p => ((p.1 : Int), p.2))

/-- Demand a specific character at the head of the input. -/
def expectChar (c : Char) : List Char → Option (List Char)
  | [] => none
  | x :: r => if x = c then some r else none

/-- Members of a JSON object (after `{` and at least one member), with fuel
for structural recursion (any fuel at least the number of members works;
callers pass the input length, which always suffices). -/
def parseEntriesAux : Nat → List Char → Option (StateObj × List Char)
  | 0, _ => none
  | fuel + 1, input =>
    (parseJString (skipWs input)).bind fun kr =>
    (expectChar ':' (skipWs kr.2)).bind fun r2 =>
    (parseJInt (skipWs r2)).bind fun vr =>
    match skipWs vr.2 with
    | [] => none
    | c4 :: r4 =>
      if c4 = ',' then
        (parseEntriesAux fuel r4).map (fun p => ((⟨kr.1⟩, vr.1) :: p.1, p.2))
      else if c4 = '}' then some ([(⟨kr.1⟩, vr.1)], r4)
      else none

/-- After the opening `{`: either an immediately closing `}` (the empty
object) or the member list; reject trailing garbage after the object. -/
def parseStateTail (fuel : Nat) : List Char → Option StateObj
  | [] => none
  | c2 :: r2 =>
    if c2 = '}' then (if (skipWs r2).isEmpty then some [] else none)
    else
      (parseEntriesAux fuel (c2 :: r2)).bind fun p =>
        if (skipWs p.2).isEmpty then some p.1 else none

/-- Parse a flat string→int JSON object, rejecting trailing garbage, as
`json.load` does on the files this application writes. -/
def parseState (cs : List Char) : Option StateObj :=
  (expectChar '{' (skipWs cs)).bind fun r => parseStateTail (cs.length + 1) (skipWs r)

/-! ## `state_manager.py` -/

/-- `load_state`: a missing file or malformed content yields the empty
state (the `except` branches), otherwise the decoded JSON object. -/
def load_state (file : Option (List Char)) : StateObj :=
  match file with
  | none => []
  | some cs => (parseState cs).getD []

/-- `save_state`: `json.dump(state_data, f, indent=4)` — the whole dict is
written. -/
def save_state (s : StateObj) : List Char := renderState s

/-- `get_last_processed_posttime`: `state.get(STATE_KEY_LAST_EVENT_POSTTIME)`. -/
def get_last_processed_posttime (s : StateObj) : Option Int :=
  (s.find? (fun kv => kv.1 = STATE_KEY)).map (fun kv => kv.2)

/-- `set_last_processed_posttime`: Python dict assignment
`state[KEY] = posttime` — updates the key in place if present, otherwise
appends it. -/
def set_last_processed_posttime (s : StateObj) (posttime : Int) : StateObj :=
  if s.any (fun kv => kv.1 = STATE_KEY) then
    s.map (fun kv => if kv.1 = STATE_KEY then (kv.1, posttime) else kv)
  else s ++ [(STATE_KEY, posttime)]

/-- A key the modelled serializer round-trips verbatim: printable ASCII
without `"` or `\` (ambient keys such as `last_processed_event_posttime`).
`json.dump` would escape anything else. -/
def ValidKey (k : String) : Prop :=
  ∀ c ∈ k.data, 32 ≤ c.toNat ∧ c.toNat ≤ 126 ∧ c ≠ '"' ∧ c ≠ '\\'

instance decValidKey : DecidablePred ValidKey := fun k => by
  unfold ValidKey; infer_instance

/-- All keys of a state are round-trippable. -/
def ValidState (s : StateObj) : Prop := ∀ e ∈ s, ValidKey e.1

instance decValidState : DecidablePred ValidState := fun s => by
  unfold ValidState; infer_instance

/-- The next character (if any) is not a digit, so a digit run ends here. -/
def headNotDigit : List Char → Prop
  | [] => True
  | c :: _ => isDigitCh c = false

/-- Value of a big-endian digit string. -/
def valDigits (l : List Char) : Nat := l.foldl (fun a c => a * 10 + digitVal c) 0

/-! ## `data_models.py` / `steam_client.py` -/

/-- `ParsedSteamEvent` from `data_models.py` (the fields it declares). -/
structure ParsedSteamEvent where
  gid : String
  title : String
  body_bbcode : String
  timestamp : Nat
  url : String
deriving DecidableEq, Repr

/-- The `announcement_body` fields `_parse_event_data` reads via `.get`
(`none` models an absent key / JSON `null`). -/
structure AnnouncementData where
  gid : Option String
  headline : Option String
  posttime : Option Nat
  body : Option String
deriving DecidableEq, Repr

/-- One element of the API's `events` array.  `poison` models an entry
whose field accesses raise (any exception inside `_parse_event_data`'s
`try`, which that function catches and maps to `None`). -/
inductive EventData where
  | evt (announcement_body : Option AnnouncementData)
  | poison
deriving DecidableEq, Repr

/-- ASCII lower-casing, as `str.lower()` acts on the ASCII headlines the
feed produces. -/
def asciiToLower (c : Char) : Char :=
  if 'A' ≤ c ∧ c ≤ 'Z' then Char.ofNat (c.toNat + 32) else c

/-- `title.lower()` as a character list. -/
def lowerStr (s : String) : List Char := s.data.map asciiToLower

/-- Python's substring test `needle in haystack`. -/
def substrIn (needle : List Char) : List Char → Bool
  | [] => needle.isEmpty
  | c :: rest => needle.isPrefixOf (c :: rest) || substrIn needle rest

/-- The keyword list of `steam_client.py` line 66. -/
def keywords : List (List Char) :=
  ["update".data, "release notes".data, "patch".data, "counter-strike 2".data]

/-- `any(keyword in normalized_title for keyword in keywords)`. -/
def containsKw (title : String) : Bool :=
  keywords.any (fun kw => substrIn kw (lowerStr title))

/-- `SteamClient._parse_event_data`: missing announcement body, missing or
falsy gid/title, missing posttime, or a raising entry yield `None`; a
headline matching no keyword is dropped (`None`); otherwise the parsed
event with the derived store URL. -/
def parse_event_data : EventData → Option ParsedSteamEvent
  | .poison => none
  | .evt none => none
  | .evt (some ann) =>
    match ann.gid, ann.headline, ann.posttime with
    | some ann_gid, some title, some post_time =>
      if ann_gid = "" ∨ title = "" then none
      else if containsKw title then
        some { gid := ann_gid, title := title,
               body_bbcode := ann.body.getD "",
               timestamp := post_time,
               url := "https://store.steampowered.com/news/app/730/view/" ++ ann_gid }
      else none
    | _, _, _ => none

/-- `all_parsed_in_batch.sort(key=lambda x: x.timestamp)`: a stable
ascending sort by timestamp, which insertion sort on `≤` implements
exactly as Python's stable `list.sort` does. -/
def sortByTs (l : List ParsedSteamEvent) : List ParsedSteamEvent :=
  List.insertionSort (fun a b => a.timestamp ≤ b.timestamp) l

/-- Exceptions `fetch_latest_events` catches. -/
inductive FetchErr where
  | httpStatusError
  | requestError
deriving DecidableEq, Repr

/-- An interaction with the upstream API: `raise_for_status` raising, a
transport failure, or a decoded payload (`success` flag plus events). -/
inductive FetchOutcome where
  | httpStatusError
  | networkError
  | payload (success : Option Int) (events : List EventData)
deriving DecidableEq, Repr

/-- The `try` block of `SteamClient.fetch_latest_events`: raised exceptions
are the `Except.error` case. -/
def fetchBody (o : FetchOutcome) (last_event_posttime : Option Int) :
    Except FetchErr (List ParsedSteamEvent) :=
  match o with
  | .httpStatusError => .error .httpStatusError
  | .networkError => .error .requestError
  | .payload success events =>
    if success = some 1 then
      let all_parsed_in_batch := sortByTs (events.filterMap parse_event_data)
      let selected :=
        match all_parsed_in_batch.getLast? with
        | some latest_event_in_batch => [latest_event_in_batch]
        | none => []
      match last_event_posttime with
      | some t => .ok (selected.filter (fun pe => (pe.timestamp : Int) > t))
      | none => .ok selected
    else .ok []

/-- `SteamClient.fetch_latest_events`: the `except` handlers log and fall
through to `return newly_parsed_events`, which is still empty whenever an
exception escaped the body. -/
def fetch_latest_events (o : FetchOutcome) (last_event_posttime : Option Int) :
    List ParsedSteamEvent :=
  match fetchBody o last_event_posttime with
  | .ok l => l
  | .error _ => []

/-- All events of the payload that parse (before selection/filtering). -/
def parsedBatch : FetchOutcome → List ParsedSteamEvent
  | .payload _ events => events.filterMap parse_event_data
  | _ => []

/-! ## `main.py` — the polling loop -/

/-- Observable loop state: the in-memory cursor (`last_posttime`), the
state dict (`app_state`), everything passed to `save_state`, every event
handed to `reddit_client.post_update`, every successfully posted event,
and whether a publish failure broke the batch. -/
structure LoopState where
  last_posttime : Option Int
  app_state : StateObj
  saves : List StateObj
  publish_calls : List ParsedSteamEvent
  posted : List ParsedSteamEvent
  publish_failed : Bool
deriving DecidableEq, Repr

/-- The `for event in new_events` body of `polling_loop` (lines 63–87):
post; on success update `last_posttime`, `set_last_processed_posttime`,
`save_state`, and continue; on failure `break` without touching state.
`post_update` abstracts the Publisher port's success/failure. -/
def processEvents (post_update : ParsedSteamEvent → Bool) :
    List ParsedSteamEvent → LoopState → LoopState
  | [], s => s
  | e :: rest, s =>
    let s1 : LoopState := { s with publish_calls := s.publish_calls ++ [e] }
    if post_update e then
      let st2 := set_last_processed_posttime s1.app_state (e.timestamp : Int)
      processEvents post_update rest
        { s1 with last_posttime := some (e.timestamp : Int),
                  app_state := st2,
                  saves := s1.saves ++ [st2],
                  posted := s1.posted ++ [e] }
    else { s1 with publish_failed := true }

/-- One iteration of the polling loop: fetch, then process the batch. -/
def runCycle (o : FetchOutcome) (post_update : ParsedSteamEvent → Bool)
    (s : LoopState) : LoopState :=
  processEvents post_update (fetch_latest_events o s.last_posttime) s

/-- A whole run: one `runCycle` per poll interval. -/
def runCycles (feeds : List FetchOutcome) (post_update : ParsedSteamEvent → Bool)
    (s : LoopState) : LoopState :=
  feeds.foldl (fun s o => runCycle o post_update s) s

/-- `polling_loop` start-up (lines 49–50): load the state file, read the
cursor from it. -/
def initLoopState (file : Option (List Char)) : LoopState :=
  { last_posttime := get_last_processed_posttime (load_state file),
    app_state := load_state file,
    saves := [], publish_calls := [], posted := [], publish_failed := false }

/-! ## `reddit_client.py` — title formatting -/

/-- Modelled from the spec: `RedditClient` reads `event.sequence_number`
and `event.is_cs2_patchnote`, fields that `data_models.ParsedSteamEvent`
under `src/` does not define (the classifier that computes them is not in
`src/`).  The spec's NormalizedEvent carries `sequenceNumber ≥ 1` and a
category; `is_cs2_patchnote` encodes category `Update`. -/
structure ClassifiedEvent extends ParsedSteamEvent where
  sequence_number : Nat
  is_cs2_patchnote : Bool
deriving DecidableEq, Repr

/-- Decimal string of a natural number (used for dates and suffixes). -/
def natToString (n : Nat) : String := ⟨renderNat n⟩

/-- Zero-padded two-digit field, as `strftime("%m"/"%d")` renders. -/
def pad2 (n : Nat) : String := if n < 10 then "0" ++ natToString n else natToString n

/-- Proleptic-Gregorian (year, month, day) for a day count since
1970-01-01 (valid for the post-1970 timestamps the feed carries); the
standard civil-from-days algorithm. -/
def civilFromDays (z : Nat) : Nat × Nat × Nat :=
  let d := z + 719468
  let era := d / 146097
  let doe := d % 146097
  let yoe := (doe - doe / 1460 + doe / 36524 - doe / 146096) / 365
  let y := yoe + era * 400
  let doy := doe - (365 * yoe + yoe / 4 - yoe / 100)
  let mp := (5 * doy + 2) / 153
  let dd := doy - (153 * mp + 2) / 5 + 1
  let m := if mp < 10 then mp + 3 else mp - 9
  (if m ≤ 2 then y + 1 else y, m, dd)

/-- `RedditClient._format_post_title`:
`Counter-Strike 2 Update for %m/%d/%Y` (UTC), with ` #N` appended exactly
when `event.sequence_number > 1`. -/
def format_post_title (event : ClassifiedEvent) : String :=
  let c := civilFromDays (event.timestamp / 86400)
  let date_str := pad2 c.2.1 ++ "/" ++ pad2 c.2.2 ++ "/" ++ natToString c.1
  let base_title := "Counter-Strike 2 Update for " ++ date_str
  if 1 < event.sequence_number then
    base_title ++ " #" ++ natToString event.sequence_number
  else base_title

/-! ## Spec-modelled classifier: intra-day sequence numbers -/

/-- A raw feed item as the spec's classifier sees it: headline and epoch
timestamp. -/
structure RawLite where
  headline : String
  ts : Nat
deriving DecidableEq, Repr

/-- Modelled from the spec: the spec's category rule keyword set
`{"update", "release notes", "patch"}` (§4.2). -/
def specKeywords : List (List Char) :=
  ["update".data, "release notes".data, "patch".data]

/-- Modelled from the spec: case-insensitive substring match of the
headline against `specKeywords`; a match means category `Update`. -/
def specIsUpdate (headline : String) : Bool :=
  specKeywords.any (fun kw => substrIn kw (lowerStr headline))

/-- UTC calendar day of an epoch timestamp (days since the epoch). -/
def dayOfTs (ts : Nat) : Nat := ts / 86400

/-- Modelled from the spec (§4.2, absent from `src/`): scan the batch
(ordered newest-first), count `Update` items on the target's UTC day with
timestamp ≤ the target's, stopping at the first item whose day is
strictly earlier than the target's. -/
def seqScan (tday tts : Nat) : List RawLite → Nat
  | [] => 0
  | i :: rest =>
    if dayOfTs i.ts < tday then 0
    else
      (if specIsUpdate i.headline = true ∧ dayOfTs i.ts = tday ∧ i.ts ≤ tts then 1 else 0)
        + seqScan tday tts rest

/-- Modelled from the spec: the sequence number of a target item — the
early-exit count for `Update` items, and the fixed value 1 otherwise. -/
def sequenceNumber (batch : List RawLite) (target : RawLite) : Nat :=
  if specIsUpdate target.headline then seqScan (dayOfTs target.ts) target.ts batch else 1

/-- The claim's wording: the number of same-UTC-day `Update` items with
timestamp up to the target's — for distinct timestamps, the 1-based rank
in ascending-timestamp order. -/
def sameDayUpdRank (batch : List RawLite) (target : RawLite) : Nat :=
  (batch.filter (fun i =>
    specIsUpdate i.headline && decide (dayOfTs i.ts = dayOfTs target.ts)
      && decide (i.ts ≤ target.ts))).length

/-! ## `reddit_client.py` — the Markdown post-pass of
`_convert_bbcode_to_markdown` (lines 78–94).  The bbcode→HTML→Markdown
library stages are external collaborators; the post-pass below is the
repository's own line-oriented rewriting. -/

/-- Python's `\s` on ASCII text (space, tab, newline, CR, VT, FF). -/
def isPyWs (c : Char) : Bool :=
  c = ' ' || c = '\t' || c = '\n' || c = '\r' || c = '\x0b' || c = '\x0c'

/-- Trailing-whitespace strip. -/
def rstripWs (l : List Char) : List Char := (l.reverse.dropWhile isPyWs).reverse

/-- `str.strip()`. -/
def stripWs (l : List Char) : List Char := rstripWs (l.dropWhile isPyWs)

/-- Match of `section_pattern = re.compile(r"^\[\s*(.+?)\s*\]\s*$")`
against a line, returning `group(1).strip()` on success: the line must
begin with `[` (the anchor allows no leading whitespace), and after
dropping trailing whitespace must end with `]` with a nonempty middle;
the group is the middle with surrounding whitespace absorbed. -/
def sectionPromote (line : List Char) : Option (List Char) :=
  match line with
  | [] => none
  | c :: rest =>
    if c = '[' then
      if (rstripWs rest).getLast? = some ']' then
        if 2 ≤ (rstripWs rest).length then some (stripWs (rstripWs rest).dropLast)
        else none
      else none
    else none

/-- Match of `subsection_pattern = re.compile(r"^([^\s\-*+][^:]*?):\s*$")`
against a line, returning `group(1).strip()` on success: first character
neither whitespace nor a bullet marker, no colon strictly between the
first character and the final colon, and only whitespace after that
colon. -/
def subsectionPromote (line : List Char) : Option (List Char) :=
  match line with
  | [] => none
  | c :: rest =>
    if isPyWs c || c = '-' || c = '*' || c = '+' then none
    else
      if (rstripWs rest).getLast? = some ':' then
        if (rstripWs rest).dropLast.contains ':' then none
        else some (stripWs (c :: (rstripWs rest).dropLast))
      else none

/-- The per-line rewriting of the post-pass: section promotion first,
then subsection promotion, else the line verbatim. -/
def promoteLine (line : List Char) : List Char :=
  match sectionPromote line with
  | some t => '#' :: '#' :: '#' :: ' ' :: t
  | none =>
    match subsectionPromote line with
    | some t => '#' :: '#' :: '#' :: '#' :: ' ' :: t
    | none => line

/-- `str.splitlines()` worker (newline-only text): split on `'\n'`,
producing no trailing empty line for text ending in a newline. -/
def splitLinesAux : List Char → List Char → List (List Char)
  | [], cur => [cur.reverse]
  | c :: rest, cur =>
    if c = '\n' then
      cur.reverse :: (match rest with | [] => [] | _ => splitLinesAux rest [])
    else splitLinesAux rest (c :: cur)

/-- `markdown_output.splitlines()`. -/
def splitLinesPy (l : List Char) : List (List Char) :=
  match l with
  | [] => []
  | _ => splitLinesAux l []

/-- `"\n".join(processed_lines)`. -/
def joinNl : List (List Char) → List Char
  | [] => []
  | [x] => x
  | x :: xs => x ++ '\n' :: joinNl xs

/-- Lines 78–94: split, promote per line, rejoin. -/
def postPass (text : List Char) : List Char :=
  joinNl ((splitLinesPy text).map promoteLine)

/-! ### Round-trip lemmas for the JSON subset -/

theorem skipWs_cons (c : Char) (l : List Char) :
    skipWs (c :: l) = if isJsonWs c then skipWs l else c :: l := rfl

theorem skipWs_append (W X : List Char) (h : ∀ c ∈ W, isJsonWs c = true) :
    skipWs (W ++ X) = skipWs X := by
  induction W with
  | nil => rfl
  | cons c W ih =>
    simp only [List.cons_append, skipWs_cons, h c (by simp), if_true]
    exact ih (fun c hc => h c (by simp [hc]))

theorem skipWs_idem (l : List Char) : skipWs (skipWs l) = skipWs l := by
  induction l with
  | nil => rfl
  | cons c l ih =>
    by_cases h : isJsonWs c = true
    · simp [skipWs_cons, h, ih]
    · simp [skipWs_cons, h]

theorem parseStringBody_append (k rest : List Char)
    (h : ∀ c ∈ k, c ≠ '"' ∧ c ≠ '\\') :
    parseStringBody (k ++ '"' :: rest) = some (k, rest) := by
  induction k with
  | nil => rfl
  | cons c k ih =>
    have hc := h c (by simp)
    simp only [List.cons_append, parseStringBody, if_neg hc.1, if_neg hc.2, List.append_eq]
    rw [ih (fun c hc => h c (by simp [hc]))]
    rfl

theorem digitChar_spec (d : Nat) (h : d < 10) :
    isDigitCh (digitChar d) = true ∧ digitVal (digitChar d) = d ∧
      isJsonWs (digitChar d) = false ∧ digitChar d ≠ '-' := by
  interval_cases d <;> exact ⟨by decide, by decide, by decide, by decide⟩

theorem natDigitsAux_all_digits :
    ∀ fuel n : Nat, ∀ c ∈ natDigitsAux fuel n, isDigitCh c = true := by
  intro fuel
  induction fuel with
  | zero => intro n c hc; simp [natDigitsAux] at hc
  | succ f ih =>
    intro n c hc
    by_cases h0 : n = 0
    · simp [natDigitsAux, h0] at hc
    · simp only [natDigitsAux, if_neg h0, List.mem_append, List.mem_singleton] at hc
      rcases hc with hc | hc
      · exact ih _ c hc
      · exact hc ▸ (digitChar_spec (n % 10) (Nat.mod_lt _ (by norm_num))).1

theorem valDigits_append_one (A : List Char) (c : Char) :
    valDigits (A ++ [c]) = valDigits A * 10 + digitVal c := by
  simp [valDigits, List.foldl_append]

theorem valDigits_natDigitsAux :
    ∀ fuel n : Nat, n ≤ fuel → valDigits (natDigitsAux fuel n) = n := by
  intro fuel
  induction fuel with
  | zero => intro n hn; interval_cases n; rfl
  | succ f ih =>
    intro n hn
    by_cases h0 : n = 0
    · simp [natDigitsAux, h0, valDigits]
    · have hlt : n / 10 ≤ f := by omega
      simp only [natDigitsAux, if_neg h0, valDigits_append_one, ih _ hlt,
        (digitChar_spec (n % 10) (Nat.mod_lt _ (by norm_num))).2.1]
      omega

theorem renderNat_all_digits (n : Nat) : ∀ c ∈ renderNat n, isDigitCh c = true := by
  intro c hc
  by_cases h0 : n = 0
  · simp [renderNat, h0] at hc; subst hc; decide
  · simpa [renderNat, h0] using natDigitsAux_all_digits n n c (by simpa [renderNat, h0] using hc)

theorem renderNat_ne_nil (n : Nat) : renderNat n ≠ [] := by
  by_cases h0 : n = 0
  · simp [renderNat, h0]
  · obtain ⟨f, rfl⟩ : ∃ f, n = f + 1 := ⟨n - 1, by omega⟩
    simp [renderNat, natDigitsAux]

theorem valDigits_renderNat (n : Nat) : valDigits (renderNat n) = n := by
  by_cases h0 : n = 0
  · simp [renderNat, h0, valDigits, digitVal]
  · simp only [renderNat, if_neg h0]
    exact valDigits_natDigitsAux n n le_rfl

theorem parseNatAux_digits (D : List Char) :
    ∀ (rest : List Char) (acc : Nat), (∀ c ∈ D, isDigitCh c = true) → headNotDigit rest →
    parseNatAux (D ++ rest) acc = (D.foldl (fun a c => a * 10 + digitVal c) acc, rest) := by
  induction D with
  | nil =>
    intro rest acc _ hrest
    cases rest with
    | nil => rfl
    | cons c cs =>
      have hc : isDigitCh c = false := hrest
      simp [parseNatAux, hc]
  | cons c D ih =>
    intro rest acc hD hrest
    simp only [List.cons_append, parseNatAux, hD c (by simp), if_true]
    exact ih rest _ (fun c hc => hD c (by simp [hc])) hrest

theorem parseNatPart_renderNat (n : Nat) (rest : List Char) (h : headNotDigit rest) :
    parseNatPart (renderNat n ++ rest) = some (n, rest) := by
  obtain ⟨c0, D, hcd⟩ := List.exists_cons_of_ne_nil (renderNat_ne_nil n)
  have hall := renderNat_all_digits n
  rw [hcd] at hall ⊢
  simp only [List.cons_append, parseNatPart, hall c0 (by simp), if_true]
  have haux := parseNatAux_digits (c0 :: D) rest 0 hall h
  simp only [List.cons_append] at haux
  rw [haux]
  have hval : valDigits (c0 :: D) = n := by rw [← hcd]; exact valDigits_renderNat n
  simp only [valDigits] at hval
  simp [hval]

theorem parseJInt_renderInt (v : Int) (rest : List Char) (h : headNotDigit rest) :
    parseJInt (renderInt v ++ rest) = some (v, rest) := by
  cases v with
  | ofNat n =>
    obtain ⟨c0, D, hcd⟩ := List.exists_cons_of_ne_nil (renderNat_ne_nil n)
    have hc0 : isDigitCh c0 = true := by
      have := renderNat_all_digits n (c := c0); rw [hcd] at this; exact this (by simp)
    have hne : c0 ≠ '-' := fun he => by rw [he] at hc0; exact absurd hc0 (by decide)
    have : renderInt (Int.ofNat n) ++ rest = c0 :: (D ++ rest) := by
      simp [renderInt, hcd]
    rw [this, parseJInt, if_neg hne]
    have hp := parseNatPart_renderNat n rest h
    rw [hcd] at hp
    simp only [List.cons_append] at hp
    rw [hp]
    rfl
  | negSucc m =>
    have : renderInt (Int.negSucc m) ++ rest = '-' :: (renderNat (m + 1) ++ rest) := by
      simp [renderInt]
    rw [this, parseJInt, if_pos rfl, parseNatPart_renderNat (m + 1) rest h]
    simp [Int.negSucc_eq]

theorem ws_not_digit (c : Char) (h : isJsonWs c = true) : isDigitCh c = false := by
  simp only [isJsonWs, Bool.or_eq_true, decide_eq_true_eq] at h
  rcases h with ((h | h) | h) | h <;> subst h <;> decide

theorem digit_not_ws (c : Char) (h : isDigitCh c = true) : isJsonWs c = false := by
  cases hw : isJsonWs c with
  | false => rfl
  | true => rw [ws_not_digit c hw] at h; exact absurd h (by simp)

theorem skipWs_cons_ws (c : Char) (l : List Char) (h : isJsonWs c = true) :
    skipWs (c :: l) = skipWs l := by
  simp [skipWs_cons, h]

theorem skipWs_cons_not (c : Char) (l : List Char) (h : isJsonWs c = false) :
    skipWs (c :: l) = c :: l := by
  simp [skipWs_cons, h]

theorem skipWs_renderInt (v : Int) (Z : List Char) :
    skipWs (renderInt v ++ Z) = renderInt v ++ Z := by
  cases v with
  | ofNat n =>
    obtain ⟨c0, D, hcd⟩ := List.exists_cons_of_ne_nil (renderNat_ne_nil n)
    have hc0 : isDigitCh c0 = true := by
      have := renderNat_all_digits n (c := c0); rw [hcd] at this; exact this (by simp)
    show skipWs (renderNat n ++ Z) = renderNat n ++ Z
    rw [hcd, List.cons_append, skipWs_cons_not c0 _ (digit_not_ws c0 hc0)]
  | negSucc m =>
    show skipWs ('-' :: renderNat (m + 1) ++ Z) = '-' :: renderNat (m + 1) ++ Z
    rw [List.cons_append, skipWs_cons_not '-' _ (by decide)]

theorem skipWs_renderEntry (e : String × Int) (Z : List Char) :
    skipWs (renderEntry e ++ Z) =
      '"' :: (e.1.data ++ '"' :: ':' :: ' ' :: (renderInt e.2 ++ Z)) := by
  simp [renderEntry, skipWs_cons, isJsonWs]

theorem parseEntriesAux_wsCons (f : Nat) (c : Char) (X : List Char)
    (h : isJsonWs c = true) :
    parseEntriesAux (f + 1) (c :: X) = parseEntriesAux (f + 1) X := by
  simp only [parseEntriesAux, skipWs_cons, h, if_true]

theorem parseEntriesAux_skipWs (f : Nat) (X : List Char) :
    parseEntriesAux (f + 1) (skipWs X) = parseEntriesAux (f + 1) X := by
  simp only [parseEntriesAux, skipWs_idem]

theorem headNotDigit_cons (c : Char) (X : List Char) (h : isDigitCh c = false) :
    headNotDigit (c :: X) := h

/-- Parsing one rendered member positions the parser at the separator
decision with the key and value recovered exactly. -/
theorem parseEntriesAux_onEntry (f : Nat) (e : String × Int) (Z : List Char)
    (hkey : ValidKey e.1) (hnd : headNotDigit Z) :
    parseEntriesAux (f + 1) (renderEntry e ++ Z)
      = (match skipWs Z with
         | [] => none
         | c4 :: r4 =>
           if c4 = ',' then (parseEntriesAux f r4).map (fun p => (e :: p.1, p.2))
           else if c4 = '}' then some ([e], r4)
           else none) := by
  have h2 : parseJString (skipWs (renderEntry e ++ Z))
      = some (e.1.data, ':' :: ' ' :: (renderInt e.2 ++ Z)) := by
    rw [skipWs_renderEntry, parseJString, if_pos rfl]
    exact parseStringBody_append _ _
      (fun c hc => ⟨(hkey c hc).2.2.1, (hkey c hc).2.2.2⟩)
  simp only [parseEntriesAux, h2, Option.some_bind]
  rw [skipWs_cons_not ':' _ (by decide)]
  rw [show expectChar ':' (':' :: (' ' :: (renderInt e.2 ++ Z)))
        = some (' ' :: (renderInt e.2 ++ Z)) from by simp [expectChar]]
  simp only [Option.some_bind]
  rw [skipWs_cons_ws ' ' _ (by decide), skipWs_renderInt]
  rw [parseJInt_renderInt e.2 Z hnd]
  simp only [Option.some_bind]

/-- Round trip for the member list of a nonempty rendered state. -/
theorem parseEntriesAux_render :
    ∀ (s : StateObj) (fuel : Nat) (tail : List Char), s ≠ [] → ValidState s →
      s.length ≤ fuel →
      parseEntriesAux fuel (joinCommaNl (s.map renderEntry) ++ '\n' :: '}' :: tail)
        = some (s, tail) := by
  intro s
  induction s with
  | nil => intro fuel tail h; exact absurd rfl h
  | cons e rest ih =>
    intro fuel tail _ hvalid hlen
    obtain ⟨f, rfl⟩ : ∃ f, fuel = f + 1 := ⟨fuel - 1, by simp at hlen; omega⟩
    have hkey : ValidKey e.1 := hvalid e (by simp)
    cases rest with
    | nil =>
      show parseEntriesAux (f + 1) (renderEntry e ++ '\n' :: '}' :: tail) = some ([e], tail)
      rw [parseEntriesAux_onEntry f e _ hkey (headNotDigit_cons _ _ (by decide))]
      rw [skipWs_cons_ws '\n' _ (by decide), skipWs_cons_not '}' _ (by decide)]
      rfl
    | cons e2 rs =>
      have hZ : (renderEntry e ++ ',' :: '\n' :: joinCommaNl ((e2 :: rs).map renderEntry))
            ++ '\n' :: '}' :: tail
          = renderEntry e ++ ',' :: '\n' ::
              (joinCommaNl ((e2 :: rs).map renderEntry) ++ '\n' :: '}' :: tail) := by
        simp
      show parseEntriesAux (f + 1)
          ((renderEntry e ++ ',' :: '\n' :: joinCommaNl ((e2 :: rs).map renderEntry))
            ++ '\n' :: '}' :: tail) = some (e :: e2 :: rs, tail)
      rw [hZ, parseEntriesAux_onEntry f e _ hkey (headNotDigit_cons _ _ (by decide))]
      rw [skipWs_cons_not ',' _ (by decide)]
      obtain ⟨f1, rfl⟩ : ∃ f1, f = f1 + 1 := ⟨f - 1, by simp at hlen; omega⟩
      show Option.map (fun p => (e :: p.1, p.2))
          (parseEntriesAux (f1 + 1)
            ('\n' :: (joinCommaNl ((e2 :: rs).map renderEntry) ++ '\n' :: '}' :: tail)))
          = some (e :: e2 :: rs, tail)
      rw [parseEntriesAux_wsCons f1 '\n' _ (by decide)]
      rw [ih (f1 + 1) tail (by simp) (fun x hx => hvalid x (by simp [hx]))
        (by simp at hlen; simp; omega)]
      rfl

theorem length_le_joinCommaNl (s : StateObj) :
    s.length ≤ (joinCommaNl (s.map renderEntry)).length := by
  induction s with
  | nil => simp [joinCommaNl]
  | cons e rest ih =>
    cases rest with
    | nil => simp [joinCommaNl, renderEntry]
    | cons e2 rs =>
      show (e :: e2 :: rs).length
          ≤ (renderEntry e ++ ',' :: '\n' :: joinCommaNl ((e2 :: rs).map renderEntry)).length
      have h1 : 1 ≤ (renderEntry e).length := by simp [renderEntry]
      simp only [List.length_append, List.length_cons] at *
      omega

/-- `json.load` inverts `json.dump(..., indent=4)` on every state whose
keys round-trip verbatim. -/
theorem parseState_renderState (s : StateObj) (hv : ValidState s) :
    parseState (renderState s) = some s := by
  cases s with
  | nil => rfl
  | cons e rest =>
    obtain ⟨Z, hZ⟩ : ∃ Z, joinCommaNl ((e :: rest).map renderEntry) ++ '\n' :: '}' :: ([] : List Char)
        = renderEntry e ++ Z := by
      cases rest with
      | nil => exact ⟨'\n' :: '}' :: [], by simp [joinCommaNl]⟩
      | cons e2 rs =>
        exact ⟨',' :: '\n' :: (joinCommaNl ((e2 :: rs).map renderEntry) ++ '\n' :: '}' :: []),
          by simp [joinCommaNl]⟩
    have hlen2 : (e :: rest).length ≤ (joinCommaNl ((e :: rest).map renderEntry)).length :=
      length_le_joinCommaNl _
    show parseState ('{' :: '\n' :: (joinCommaNl ((e :: rest).map renderEntry) ++ '\n' :: '}' :: []))
        = some (e :: rest)
    simp only [parseState]
    rw [skipWs_cons_not '{' _ (by decide)]
    rw [show expectChar '{'
          ('{' :: ('\n' :: (joinCommaNl ((e :: rest).map renderEntry) ++ '\n' :: '}' :: [])))
        = some ('\n' :: (joinCommaNl ((e :: rest).map renderEntry) ++ '\n' :: '}' :: []))
        from by simp [expectChar]]
    simp only [Option.some_bind]
    have h2 : skipWs ('\n' :: (joinCommaNl ((e :: rest).map renderEntry) ++ '\n' :: '}' :: []))
        = '"' :: (e.1.data ++ '"' :: ':' :: ' ' :: (renderInt e.2 ++ Z)) := by
      rw [skipWs_cons_ws '\n' _ (by decide), hZ, skipWs_renderEntry]
    rw [h2]
    simp only [parseStateTail]
    rw [if_neg (by decide : ¬('"' = '}')), ← h2, parseEntriesAux_skipWs,
      parseEntriesAux_wsCons _ '\n' _ (by decide),
      parseEntriesAux_render (e :: rest) _ [] (by simp) hv
        (by simp at hlen2 ⊢; omega)]
    rfl

theorem validKey_STATE_KEY : ValidKey STATE_KEY := by decide

theorem validState_set (s : StateObj) (t : Int) (hv : ValidState s) :
    ValidState (set_last_processed_posttime s t) := by
  intro x hx
  unfold set_last_processed_posttime at hx
  by_cases ha : s.any (fun kv => kv.1 = STATE_KEY) = true
  · rw [if_pos ha] at hx
    obtain ⟨y, hy, hxy⟩ := List.mem_map.mp hx
    by_cases hk : y.1 = STATE_KEY
    · rw [if_pos hk] at hxy
      have : x.1 = y.1 := by rw [← hxy]
      rw [this]
      exact hv y hy
    · rw [if_neg hk] at hxy
      rw [← hxy]
      exact hv y hy
  · rw [if_neg ha] at hx
    rcases List.mem_append.mp hx with h | h
    · exact hv x h
    · have : x = (STATE_KEY, t) := by simpa using h
      rw [this]
      exact validKey_STATE_KEY

theorem mem_set_last (s : StateObj) (t : Int) (k : String) (v : Int)
    (hk : k ≠ STATE_KEY) (hmem : (k, v) ∈ s) :
    (k, v) ∈ set_last_processed_posttime s t := by
  unfold set_last_processed_posttime
  by_cases ha : s.any (fun kv => kv.1 = STATE_KEY) = true
  · rw [if_pos ha]
    exact List.mem_map.mpr ⟨(k, v), hmem, by simp [hk]⟩
  · rw [if_neg ha]
    exact List.mem_append_left _ hmem

/-! ### Lemmas about event selection (`fetch_latest_events`) -/

instance : IsTotal ParsedSteamEvent (fun a b => a.timestamp ≤ b.timestamp) :=
  ⟨fun a b => Nat.le_total _ _⟩

instance : IsTrans ParsedSteamEvent (fun a b => a.timestamp ≤ b.timestamp) :=
  ⟨fun _ _ _ => Nat.le_trans⟩

theorem mem_sortByTs (x : ParsedSteamEvent) (l : List ParsedSteamEvent) :
    x ∈ sortByTs l ↔ x ∈ l :=
  (List.perm_insertionSort _ l).mem_iff

theorem sorted_sortByTs (l : List ParsedSteamEvent) :
    List.Sorted (fun a b => a.timestamp ≤ b.timestamp) (sortByTs l) :=
  List.sorted_insertionSort _ l

theorem mem_of_getLast_some :
    ∀ (K : List ParsedSteamEvent) (m : ParsedSteamEvent), K.getLast? = some m → m ∈ K := by
  intro K
  induction K with
  | nil => simp
  | cons a K ih =>
    intro m hm
    cases K with
    | nil =>
      simp only [List.getLast?_singleton, Option.some.injEq] at hm
      simp [hm]
    | cons b K2 =>
      rw [List.getLast?_cons_cons] at hm
      exact List.mem_cons_of_mem _ (ih m hm)

theorem sorted_le_getLast :
    ∀ (L : List ParsedSteamEvent),
      List.Sorted (fun a b => a.timestamp ≤ b.timestamp) L →
      ∀ x ∈ L, ∀ m, L.getLast? = some m → x.timestamp ≤ m.timestamp := by
  intro L
  induction L with
  | nil => intro _ x hx; simp at hx
  | cons a L ih =>
    intro hs x hx m hm
    cases L with
    | nil =>
      simp only [List.getLast?_singleton, Option.some.injEq] at hm
      simp only [List.mem_singleton] at hx
      rw [hx, ← hm]
    | cons b L2 =>
      rw [List.getLast?_cons_cons] at hm
      rcases List.mem_cons.mp hx with rfl | hx2
      · exact (List.pairwise_cons.mp hs).1 m (mem_of_getLast_some _ m hm)
      · exact ih (List.Pairwise.of_cons hs) x hx2 m hm

/-- Behaviour of one fetch: nothing, or exactly one event — the newest
parsed one, strictly newer than the cursor when the cursor is set. -/
theorem fetch_cases (o : FetchOutcome) (lastT : Option Int) :
    fetch_latest_events o lastT = [] ∨
    ∃ e, fetch_latest_events o lastT = [e] ∧ e ∈ parsedBatch o
      ∧ (∀ t, lastT = some t → t < (e.timestamp : Int))
      ∧ (∀ p ∈ parsedBatch o, p.timestamp ≤ e.timestamp) := by
  cases o with
  | httpStatusError => left; cases lastT <;> rfl
  | networkError => left; cases lastT <;> rfl
  | payload success events =>
    by_cases hs : success = some 1
    · cases hL : (sortByTs (events.filterMap parse_event_data)).getLast? with
      | none =>
        left
        cases lastT <;> simp [fetch_latest_events, fetchBody, hs, hL]
      | some latest =>
        have hmem : latest ∈ events.filterMap parse_event_data :=
          (mem_sortByTs _ _).mp (mem_of_getLast_some _ _ hL)
        have hmax : ∀ p ∈ events.filterMap parse_event_data,
            p.timestamp ≤ latest.timestamp := fun p hp =>
          sorted_le_getLast _ (sorted_sortByTs _) p ((mem_sortByTs _ _).mpr hp) latest hL
        cases lastT with
        | none =>
          right
          exact ⟨latest, by simp [fetch_latest_events, fetchBody, hs, hL], hmem,
            by simp, hmax⟩
        | some t =>
          by_cases ht : t < (latest.timestamp : Int)
          · right
            refine ⟨latest, ?_, hmem, ?_, hmax⟩
            · have hd : decide ((latest.timestamp : Int) > t) = true := by
                simp only [decide_eq_true_eq]; omega
              simp [fetch_latest_events, fetchBody, hs, hL, List.filter_cons, hd]
            · intro t' ht'
              rw [Option.some.injEq] at ht'
              rw [← ht']
              exact ht
          · left
            have hd : decide ((latest.timestamp : Int) > t) = false := by
              simp only [decide_eq_false_iff_not]; omega
            simp [fetch_latest_events, fetchBody, hs, hL, List.filter_cons, hd]
    · left
      cases lastT <;> simp [fetch_latest_events, fetchBody, hs]

/-! ### Lemmas about the polling loop -/

theorem processEvents_nil (f : ParsedSteamEvent → Bool) (s : LoopState) :
    processEvents f [] s = s := rfl

theorem processEvents_success (f : ParsedSteamEvent → Bool) (e : ParsedSteamEvent)
    (rest : List ParsedSteamEvent) (s : LoopState) (h : f e = true) :
    processEvents f (e :: rest) s =
      processEvents f rest
        { last_posttime := some (e.timestamp : Int),
          app_state := set_last_processed_posttime s.app_state (e.timestamp : Int),
          saves := s.saves ++ [set_last_processed_posttime s.app_state (e.timestamp : Int)],
          publish_calls := s.publish_calls ++ [e],
          posted := s.posted ++ [e],
          publish_failed := s.publish_failed } := by
  simp [processEvents, h]

theorem processEvents_failure (f : ParsedSteamEvent → Bool) (e : ParsedSteamEvent)
    (rest : List ParsedSteamEvent) (s : LoopState) (h : f e = false) :
    processEvents f (e :: rest) s =
      { s with publish_calls := s.publish_calls ++ [e], publish_failed := true } := by
  simp [processEvents, h]

/-- One polling cycle either does nothing to the state, or handles the
single fetched event (strictly newer than a set cursor), succeeding or
failing. -/
theorem runCycle_cases (o : FetchOutcome) (f : ParsedSteamEvent → Bool) (s : LoopState) :
    runCycle o f s = s ∨
    ∃ e, fetch_latest_events o s.last_posttime = [e]
      ∧ (∀ t, s.last_posttime = some t → t < (e.timestamp : Int))
      ∧ (f e = true ∧ runCycle o f s =
            { last_posttime := some (e.timestamp : Int),
              app_state := set_last_processed_posttime s.app_state (e.timestamp : Int),
              saves := s.saves ++ [set_last_processed_posttime s.app_state (e.timestamp : Int)],
              publish_calls := s.publish_calls ++ [e],
              posted := s.posted ++ [e],
              publish_failed := s.publish_failed }
        ∨ f e = false ∧ runCycle o f s =
            { s with publish_calls := s.publish_calls ++ [e], publish_failed := true }) := by
  rcases fetch_cases o s.last_posttime with hf | ⟨e, he, _, hstrict, _⟩
  · left
    unfold runCycle
    rw [hf]
    rfl
  · right
    refine ⟨e, he, hstrict, ?_⟩
    unfold runCycle
    rw [he]
    cases hfe : f e
    · right
      exact ⟨rfl, processEvents_failure _ _ _ _ hfe⟩
    · left
      refine ⟨rfl, ?_⟩
      rw [processEvents_success _ _ _ _ hfe]
      rfl

/-- A set cursor stays set and can only grow over one cycle. -/
theorem runCycle_last_mono (o : FetchOutcome) (f : ParsedSteamEvent → Bool)
    (s : LoopState) (t : Int) (h : s.last_posttime = some t) :
    ∃ t', (runCycle o f s).last_posttime = some t' ∧ t ≤ t' := by
  rcases runCycle_cases o f s with hc | ⟨e, _, hstrict, hcase | hcase⟩
  · exact ⟨t, by rw [hc, h], le_refl t⟩
  · exact ⟨(e.timestamp : Int), by rw [hcase.2], le_of_lt (hstrict t h)⟩
  · exact ⟨t, by rw [hcase.2]; exact h, le_refl t⟩

/-! ### Lemmas about the sequence-number scan -/

theorem dayOfTs_mono {a b : Nat} (h : a ≤ b) : dayOfTs a ≤ dayOfTs b :=
  Nat.div_le_div_right h

/-- On a newest-first batch the early-exit scan counts exactly the
same-day `Update` items up to the target timestamp. -/
theorem seqScan_eq_filter (tday tts : Nat) :
    ∀ batch : List RawLite, List.Pairwise (fun a b : RawLite => b.ts ≤ a.ts) batch →
      seqScan tday tts batch
        = (batch.filter (fun i =>
            specIsUpdate i.headline && decide (dayOfTs i.ts = tday)
              && decide (i.ts ≤ tts))).length := by
  intro batch
  induction batch with
  | nil => intro _; rfl
  | cons i rest ih =>
    intro hpair
    have hrest := List.Pairwise.of_cons hpair
    by_cases hd : dayOfTs i.ts < tday
    · simp only [seqScan, if_pos hd]
      symm
      rw [List.length_eq_zero]
      rw [List.filter_eq_nil]
      intro j hj
      have hjday : dayOfTs j.ts < tday := by
        rcases List.mem_cons.mp hj with rfl | hj2
        · exact hd
        · exact lt_of_le_of_lt (dayOfTs_mono ((List.pairwise_cons.mp hpair).1 j hj2)) hd
      cases h1 : specIsUpdate j.headline <;>
        cases h2 : decide (dayOfTs j.ts = tday) <;>
          cases h3 : decide (j.ts ≤ tts) <;> simp_all
    · simp only [seqScan, if_neg hd, List.filter_cons]
      by_cases hp : specIsUpdate i.headline = true ∧ dayOfTs i.ts = tday ∧ i.ts ≤ tts
      · rw [if_pos hp,
          if_pos (show (specIsUpdate i.headline && decide (dayOfTs i.ts = tday)
            && decide (i.ts ≤ tts)) = true by simp [hp.1, hp.2.1, hp.2.2])]
        rw [ih hrest]
        simp [Nat.add_comm]
      · rw [if_neg hp,
          if_neg (show ¬((specIsUpdate i.headline && decide (dayOfTs i.ts = tday)
            && decide (i.ts ≤ tts)) = true) from by
              intro hc
              exact hp (by simpa [Bool.and_eq_true, decide_eq_true_eq, and_assoc] using hc))]
        rw [ih hrest]
        simp

/-! ### Lemmas about the Markdown post-pass -/

theorem dropWhile_append_allWs (V Y : List Char) (h : ∀ c ∈ V, isPyWs c = true) :
    List.dropWhile isPyWs (V ++ Y) = List.dropWhile isPyWs Y := by
  induction V with
  | nil => rfl
  | cons c V ih =>
    simp only [List.cons_append, List.dropWhile_cons, h c (by simp), if_true]
    exact ih (fun c hc => h c (by simp [hc]))

theorem rstripWs_append_ws (X W : List Char) (h : ∀ c ∈ W, isPyWs c = true) :
    rstripWs (X ++ W) = rstripWs X := by
  unfold rstripWs
  rw [List.reverse_append, dropWhile_append_allWs _ _ (fun c hc => h c (by simpa using hc))]

theorem rstripWs_concat_not (X : List Char) (d : Char) (h : isPyWs d = false) :
    rstripWs (X ++ [d]) = X ++ [d] := by
  unfold rstripWs
  rw [List.reverse_append]
  simp [List.dropWhile_cons, h]

/-- The section pattern fires exactly on `[` + middle + `]` + trailing
whitespace, yielding the stripped middle. -/
theorem sectionPromote_shape (M W : List Char) (hM : M ≠ [])
    (hW : ∀ c ∈ W, isPyWs c = true) :
    sectionPromote ('[' :: (M ++ ']' :: W)) = some (stripWs M) := by
  have h1 : rstripWs (M ++ ']' :: W) = M ++ [']'] := by
    rw [show M ++ ']' :: W = (M ++ [']']) ++ W by simp,
      rstripWs_append_ws _ _ hW, rstripWs_concat_not _ _ (by decide)]
  have hlen : 2 ≤ (M ++ [']']).length := by
    have hm := List.length_pos.mpr hM
    simp [List.length_append]
    exact hm
  simp [sectionPromote, h1, List.getLast?_concat, hlen, List.dropLast_concat, hM]

theorem subsectionPromote_shape (c : Char) (T W : List Char)
    (hc1 : isPyWs c = false) (hc2 : c ≠ '-') (hc3 : c ≠ '*') (hc4 : c ≠ '+')
    (hT : ':' ∉ T) (hW : ∀ w ∈ W, isPyWs w = true) :
    subsectionPromote (c :: (T ++ ':' :: W)) = some (stripWs (c :: T)) := by
  have h1 : rstripWs (T ++ ':' :: W) = T ++ [':'] := by
    rw [show T ++ ':' :: W = (T ++ [':']) ++ W by simp,
      rstripWs_append_ws _ _ hW, rstripWs_concat_not _ _ (by decide)]
  have hcond : ¬((isPyWs c || c = '-' || c = '*' || c = '+') = true) := by
    simp [hc1, hc2, hc3, hc4]
  have hTc : T.contains ':' = false := by simpa using hT
  simp [subsectionPromote, if_neg hcond, h1, List.getLast?_concat,
    List.dropLast_concat, hTc, hc1, hc2, hc3, hc4, hT]

/-- The section pattern never fires on a line whose trailing-stripped form
ends in `:`. -/
theorem sectionPromote_colon_none (c : Char) (T W : List Char) (hT : ':' ∉ T)
    (hW : ∀ w ∈ W, isPyWs w = true) :
    sectionPromote (c :: (T ++ ':' :: W)) = none := by
  have h1 : rstripWs (T ++ ':' :: W) = T ++ [':'] := by
    rw [show T ++ ':' :: W = (T ++ [':']) ++ W by simp,
      rstripWs_append_ws _ _ hW, rstripWs_concat_not _ _ (by decide)]
  by_cases hc : c = '['
  · simp [sectionPromote, hc, h1, List.getLast?_concat]
  · simp [sectionPromote, hc]

theorem promoteLine_section (line t : List Char) (h : sectionPromote line = some t) :
    promoteLine line = '#' :: '#' :: '#' :: ' ' :: t := by
  simp [promoteLine, h]

theorem promoteLine_subsection (line t : List Char) (h1 : sectionPromote line = none)
    (h2 : subsectionPromote line = some t) :
    promoteLine line = '#' :: '#' :: '#' :: '#' :: ' ' :: t := by
  simp [promoteLine, h1, h2]

theorem promoteLine_id (line : List Char) (h1 : sectionPromote line = none)
    (h2 : subsectionPromote line = none) :
    promoteLine line = line := by
  simp [promoteLine, h1, h2]

/-! ## Claim theorems -/

/-- C1, counterexample: the claim says an event arriving less than 7200 s
after the last publish is `Skipped` and the Publisher is never invoked.
The code consults no clock at all: in a run of two consecutive cycles —
which real time can place arbitrarily close together, in particular with
elapsed < 7200 s — the publisher is invoked for both events and both are
published; no `Skipped` outcome exists. -/
theorem publish_ignores_elapsed_time :
    ((runCycles
        [FetchOutcome.payload (some 1)
            [.evt (some ⟨some "1", some "Update 1", some 1000, some "a"⟩)],
         FetchOutcome.payload (some 1)
            [.evt (some ⟨some "2", some "Update 2", some 1001, some "b"⟩)]]
        (fun _ => true) (initLoopState none)).publish_calls).map (fun e => e.gid) = ["1", "2"]
    ∧ ((runCycles
        [FetchOutcome.payload (some 1)
            [.evt (some ⟨some "1", some "Update 1", some 1000, some "a"⟩)],
         FetchOutcome.payload (some 1)
            [.evt (some ⟨some "2", some "Update 2", some 1001, some "b"⟩)]]
        (fun _ => true) (initLoopState none)).posted).map (fun e => e.gid) = ["1", "2"]
    ∧ (runCycles
        [FetchOutcome.payload (some 1)
            [.evt (some ⟨some "1", some "Update 1", some 1000, some "a"⟩)],
         FetchOutcome.payload (some 1)
            [.evt (some ⟨some "2", some "Update 2", some 1001, some "b"⟩)]]
        (fun _ => true) (initLoopState none)).last_posttime = some 1001 := by decide

/-- C1, amended: `polling_loop` has no minimum-interval gate and no
`Skipped` outcome.  Every fetched event is handed to the publisher
regardless of any elapsed time; on success `lastProcessedTimestampSec`
advances to the event's timestamp and the state is persisted, on failure
nothing changes except the failure flag. -/
theorem processEvents_no_rate_gate (f : ParsedSteamEvent → Bool)
    (e : ParsedSteamEvent) (s : LoopState) :
    (processEvents f [e] s).publish_calls = s.publish_calls ++ [e]
    ∧ (f e = true → processEvents f [e] s =
        { last_posttime := some (e.timestamp : Int),
          app_state := set_last_processed_posttime s.app_state (e.timestamp : Int),
          saves := s.saves ++ [set_last_processed_posttime s.app_state (e.timestamp : Int)],
          publish_calls := s.publish_calls ++ [e],
          posted := s.posted ++ [e],
          publish_failed := s.publish_failed })
    ∧ (f e = false → processEvents f [e] s =
        { s with publish_calls := s.publish_calls ++ [e], publish_failed := true }) := by
  refine ⟨?_, ?_, ?_⟩
  · cases hf : f e
    · rw [processEvents_failure _ _ _ _ hf]
    · rw [processEvents_success _ _ _ _ hf]
      rfl
  · intro hf
    rw [processEvents_success _ _ _ _ hf]
    rfl
  · intro hf
    rw [processEvents_failure _ _ _ _ hf]

theorem processEvents_no_rate_gate_witness :
    processEvents (fun _ => true)
        [{ gid := "1", title := "t", body_bbcode := "b", timestamp := 1000, url := "u" }]
        (initLoopState none)
      = { last_posttime := some 1000,
          app_state := [(STATE_KEY, 1000)],
          saves := [[(STATE_KEY, 1000)]],
          publish_calls :=
            [{ gid := "1", title := "t", body_bbcode := "b", timestamp := 1000, url := "u" }],
          posted :=
            [{ gid := "1", title := "t", body_bbcode := "b", timestamp := 1000, url := "u" }],
          publish_failed := false } :=
  (processEvents_no_rate_gate (fun _ => true) _ (initLoopState none)).2.1 rfl

/-- C3, counterexample: a raw item whose headline matches no keyword is
dropped by `_parse_event_data` (`None`), not classified as an
`Announcement`-category event; and "counter-strike 2" is a fourth member
of the keyword list, so a headline matching none of the claimed three
keywords is still kept. -/
theorem keywordless_item_discarded :
    parse_event_data
        (.evt (some ⟨some "g1", some "Team Spirit wins the Major", some 1000, some "b"⟩))
      = none
    ∧ specIsUpdate "Counter-Strike 2" = false
    ∧ parse_event_data (.evt (some ⟨some "g2", some "Counter-Strike 2", some 1000, some "b"⟩))
        = some { gid := "g2", title := "Counter-Strike 2", body_bbcode := "b", timestamp := 1000,
                 url := "https://store.steampowered.com/news/app/730/view/g2" } := by decide

/-- C3, amended: `_parse_event_data` matches the lower-cased headline
against the keyword list `{"update", "release notes", "patch",
"counter-strike 2"}`; a match yields the parsed event, a non-match
discards the item (`None`) — no Announcement category is produced here. -/
theorem parse_event_keyword_filter :
    (∀ (g t : String) (pt : Nat) (b : Option String),
        ¬(g = "" ∨ t = "") → containsKw t = true →
        parse_event_data (.evt (some ⟨some g, some t, some pt, b⟩))
          = some { gid := g, title := t, body_bbcode := b.getD "", timestamp := pt,
                   url := "https://store.steampowered.com/news/app/730/view/" ++ g })
    ∧ (∀ (g t : String) (pt : Nat) (b : Option String),
        containsKw t = false →
        parse_event_data (.evt (some ⟨some g, some t, some pt, b⟩)) = none)
    ∧ containsKw "Counter-Strike 2 arrives" = true
    ∧ specIsUpdate "Counter-Strike 2 arrives" = false := by
  refine ⟨?_, ?_, by decide, by decide⟩
  · intro g t pt b hne hkw
    simp [parse_event_data, hne, hkw]
  · intro g t pt b hkw
    by_cases hne : g = "" ∨ t = ""
    · simp [parse_event_data, hne]
    · simp [parse_event_data, hne, hkw]

theorem parse_event_keyword_filter_witness :
    parse_event_data (.evt (some ⟨some "g3", some "release notes 05/06", some 5, some "x"⟩))
      = some { gid := "g3", title := "release notes 05/06", body_bbcode := "x", timestamp := 5,
               url := "https://store.steampowered.com/news/app/730/view/g3" } :=
  parse_event_keyword_filter.1 "g3" "release notes 05/06" 5 (some "x") (by decide) (by decide)

/-- C5: over any cycle and any run, a set cursor never decreases; the
cursor and the persisted state change only when an event is posted, and
after a successful post the cursor equals that event's timestamp and
exactly that state was saved. -/
theorem cursor_monotone_tracks_posts :
    (∀ (o : FetchOutcome) (f : ParsedSteamEvent → Bool) (s : LoopState) (t t' : Int),
        s.last_posttime = some t → (runCycle o f s).last_posttime = some t' → t ≤ t')
    ∧ (∀ (o : FetchOutcome) (f : ParsedSteamEvent → Bool) (s : LoopState),
        (runCycle o f s).posted = s.posted →
        (runCycle o f s).last_posttime = s.last_posttime ∧ (runCycle o f s).saves = s.saves)
    ∧ (∀ (o : FetchOutcome) (f : ParsedSteamEvent → Bool) (s : LoopState)
        (e : ParsedSteamEvent),
        (runCycle o f s).posted = s.posted ++ [e] →
        (runCycle o f s).last_posttime = some (e.timestamp : Int)
        ∧ (runCycle o f s).saves
            = s.saves ++ [set_last_processed_posttime s.app_state (e.timestamp : Int)])
    ∧ (∀ (feeds : List FetchOutcome) (f : ParsedSteamEvent → Bool) (s : LoopState)
        (t t' : Int),
        s.last_posttime = some t → (runCycles feeds f s).last_posttime = some t' → t ≤ t') := by
  have h1 : ∀ (o : FetchOutcome) (f : ParsedSteamEvent → Bool) (s : LoopState) (t t' : Int),
      s.last_posttime = some t → (runCycle o f s).last_posttime = some t' → t ≤ t' := by
    intro o f s t t' h h'
    obtain ⟨t'', h'', hle⟩ := runCycle_last_mono o f s t h
    rw [h''] at h'
    have := Option.some.inj h'
    omega
  refine ⟨h1, ?_, ?_, ?_⟩
  · intro o f s hpost
    rcases runCycle_cases o f s with hc | ⟨e, _, _, ⟨_, hcase⟩ | ⟨_, hcase⟩⟩
    · rw [hc]
      exact ⟨rfl, rfl⟩
    · rw [hcase] at hpost
      simp at hpost
    · rw [hcase]
      exact ⟨rfl, rfl⟩
  · intro o f s e hpost
    rcases runCycle_cases o f s with hc | ⟨e', _, _, ⟨_, hcase⟩ | ⟨_, hcase⟩⟩
    · rw [hc] at hpost
      simp at hpost
    · rw [hcase] at hpost ⊢
      simp at hpost
      subst hpost
      exact ⟨rfl, rfl⟩
    · rw [hcase] at hpost
      simp at hpost
  · intro feeds
    induction feeds with
    | nil =>
      intro f s t t' h h'
      have hr : runCycles [] f s = s := rfl
      rw [hr, h] at h'
      have := Option.some.inj h'
      omega
    | cons o os ih =>
      intro f s t t' h h'
      obtain ⟨t'', h'', hle⟩ := runCycle_last_mono o f s t h
      have hc : runCycles (o :: os) f s = runCycles os f (runCycle o f s) := rfl
      rw [hc] at h'
      exact le_trans hle (ih f _ t'' t' h'' h')

theorem cursor_monotone_tracks_posts_witness :
    ({ last_posttime := some 500, app_state := [], saves := [], publish_calls := [],
       posted := [], publish_failed := false } : LoopState).last_posttime = some 500
    ∧ (runCycle
        (FetchOutcome.payload (some 1)
          [.evt (some ⟨some "1", some "Update 1", some 1000, some "a"⟩)])
        (fun _ => true)
        { last_posttime := some 500, app_state := [], saves := [], publish_calls := [],
          posted := [], publish_failed := false }).last_posttime = some 1000
    ∧ (500 : Int) ≤ 1000 := by
  refine ⟨rfl, by decide, ?_⟩
  exact cursor_monotone_tracks_posts.1
    (FetchOutcome.payload (some 1)
      [.evt (some ⟨some "1", some "Update 1", some 1000, some "a"⟩)])
    (fun _ => true)
    { last_posttime := some 500, app_state := [], saves := [], publish_calls := [],
      posted := [], publish_failed := false }
    500 1000 rfl (by decide)

/-- C6: when the publish of the head event fails, the cursor, the state
dict and the saved-state log are untouched, nothing further is posted or
attempted this cycle, the failure is reported, and the next fetch (which
depends only on the unchanged cursor) is unaffected — the event stays
eligible. -/
theorem publish_failure_preserves_state :
    ∀ (f : ParsedSteamEvent → Bool) (e : ParsedSteamEvent)
      (rest : List ParsedSteamEvent) (s : LoopState), f e = false →
      (processEvents f (e :: rest) s).last_posttime = s.last_posttime
      ∧ (processEvents f (e :: rest) s).app_state = s.app_state
      ∧ (processEvents f (e :: rest) s).saves = s.saves
      ∧ (processEvents f (e :: rest) s).posted = s.posted
      ∧ (processEvents f (e :: rest) s).publish_failed = true
      ∧ (processEvents f (e :: rest) s).publish_calls = s.publish_calls ++ [e]
      ∧ (∀ o, fetch_latest_events o (processEvents f (e :: rest) s).last_posttime
            = fetch_latest_events o s.last_posttime) := by
  intro f e rest s h
  rw [processEvents_failure f e rest s h]
  exact ⟨rfl, rfl, rfl, rfl, rfl, rfl, fun _ => rfl⟩

theorem publish_failure_preserves_state_witness :
    (processEvents (fun _ => false)
        [{ gid := "1", title := "t", body_bbcode := "b", timestamp := 1000, url := "u" }]
        (initLoopState none)).last_posttime = none
    ∧ (processEvents (fun _ => false)
        [{ gid := "1", title := "t", body_bbcode := "b", timestamp := 1000, url := "u" }]
        (initLoopState none)).saves = []
    ∧ (processEvents (fun _ => false)
        [{ gid := "1", title := "t", body_bbcode := "b", timestamp := 1000, url := "u" }]
        (initLoopState none)).publish_failed = true := by
  have h := publish_failure_preserves_state (fun _ => false)
    { gid := "1", title := "t", body_bbcode := "b", timestamp := 1000, url := "u" }
    [] (initLoopState none) rfl
  exact ⟨h.1, h.2.2.1, h.2.2.2.2.1⟩

/-- C2: on a newest-first batch the sequence number of an `Update` item is
the number of same-UTC-day `Update` items with timestamp up to its own —
the 1-based ascending-timestamp rank; three same-day updates at
`t1 < t2 < t3` give the middle one sequence 2 and a lone update gets 1;
and `_format_post_title` appends ` #N` to the date template exactly when
`sequence_number > 1`. -/
theorem sequence_number_rank_and_title :
    (∀ (batch : List RawLite) (target : RawLite),
        List.Pairwise (fun a b : RawLite => b.ts ≤ a.ts) batch →
        specIsUpdate target.headline = true →
        sequenceNumber batch target = sameDayUpdRank batch target)
    ∧ sequenceNumber [⟨"update c", 300⟩, ⟨"update b", 200⟩, ⟨"update a", 100⟩]
        ⟨"update b", 200⟩ = 2
    ∧ sequenceNumber [⟨"update solo", 400⟩] ⟨"update solo", 400⟩ = 1
    ∧ (∀ ev : ClassifiedEvent, 1 < ev.sequence_number →
        format_post_title ev = "Counter-Strike 2 Update for "
          ++ pad2 (civilFromDays (ev.timestamp / 86400)).2.1 ++ "/"
          ++ pad2 (civilFromDays (ev.timestamp / 86400)).2.2 ++ "/"
          ++ natToString (civilFromDays (ev.timestamp / 86400)).1
          ++ " #" ++ natToString ev.sequence_number)
    ∧ (∀ ev : ClassifiedEvent, ev.sequence_number ≤ 1 →
        format_post_title ev = "Counter-Strike 2 Update for "
          ++ pad2 (civilFromDays (ev.timestamp / 86400)).2.1 ++ "/"
          ++ pad2 (civilFromDays (ev.timestamp / 86400)).2.2 ++ "/"
          ++ natToString (civilFromDays (ev.timestamp / 86400)).1) := by
  refine ⟨?_, by decide, by decide, ?_, ?_⟩
  · intro batch target hpair hupd
    unfold sequenceNumber sameDayUpdRank
    rw [if_pos hupd]
    exact seqScan_eq_filter _ _ batch hpair
  · intro ev h
    simp [format_post_title, h, String.append_assoc]
  · intro ev h
    have hn : ¬(1 < ev.sequence_number) := by omega
    simp [format_post_title, hn, String.append_assoc]

theorem sequence_number_rank_and_title_witness :
    sequenceNumber [⟨"update b", 200⟩, ⟨"update a", 100⟩] ⟨"update a", 100⟩
        = sameDayUpdRank [⟨"update b", 200⟩, ⟨"update a", 100⟩] ⟨"update a", 100⟩
    ∧ format_post_title
        { gid := "g", title := "t", body_bbcode := "b", timestamp := 1715000000,
          url := "u", sequence_number := 3, is_cs2_patchnote := true }
        = "Counter-Strike 2 Update for 05/06/2024 #3" := by
  constructor
  · exact sequence_number_rank_and_title.1 _ _ (by decide) (by decide)
  · have h := sequence_number_rank_and_title.2.2.2.1
      { gid := "g", title := "t", body_bbcode := "b", timestamp := 1715000000,
        url := "u", sequence_number := 3, is_cs2_patchnote := true }
      (by decide)
    rw [h]
    decide

/-- C4, counterexample: the claim says a line with optional leading
whitespace, then `[`, text, `]` becomes a level-3 heading; but
`section_pattern` is anchored at `^\[`, so a leading space makes the line
pass through verbatim. -/
theorem leading_whitespace_section_not_promoted :
    postPass (' ' :: "[ WEAPONS ]".data) = ' ' :: "[ WEAPONS ]".data
    ∧ sectionPromote (' ' :: "[ WEAPONS ]".data) = none
    ∧ ' ' :: "[ WEAPONS ]".data ≠ '#' :: '#' :: '#' :: ' ' :: "WEAPONS".data := by decide

/-- C4, amended: the post-pass maps each line independently; a line that
begins with `[` (no leading whitespace) and, after trailing whitespace,
ends with `]` around a nonempty middle becomes a level-3 heading of the
stripped middle; a line whose first character is neither whitespace nor a
bullet marker, with no colon before a final colon followed only by
trailing whitespace, becomes a level-4 heading; everything else passes
through verbatim (`[ WEAPONS ]` ⇒ `### WEAPONS`, `Maps:` ⇒ `#### Maps`). -/
theorem post_pass_promotions :
    (∀ M W : List Char, M ≠ [] → (∀ c ∈ W, isPyWs c = true) →
        promoteLine ('[' :: (M ++ ']' :: W)) = '#' :: '#' :: '#' :: ' ' :: stripWs M)
    ∧ (∀ (c : Char) (T W : List Char), isPyWs c = false → c ≠ '-' → c ≠ '*' → c ≠ '+' →
        ':' ∉ T → (∀ w ∈ W, isPyWs w = true) →
        promoteLine (c :: (T ++ ':' :: W)) = '#' :: '#' :: '#' :: '#' :: ' ' :: stripWs (c :: T))
    ∧ (∀ line, sectionPromote line = none → subsectionPromote line = none →
        promoteLine line = line)
    ∧ postPass "[ WEAPONS ]\nMaps:\n- legacy".data = "### WEAPONS\n#### Maps\n- legacy".data := by
  refine ⟨?_, ?_, promoteLine_id, by decide⟩
  · intro M W hM hW
    exact promoteLine_section _ _ (sectionPromote_shape M W hM hW)
  · intro c T W hc1 hc2 hc3 hc4 hT hW
    exact promoteLine_subsection _ _ (sectionPromote_colon_none c T W hT hW)
      (subsectionPromote_shape c T W hc1 hc2 hc3 hc4 hT hW)

theorem post_pass_promotions_witness :
    promoteLine ('[' :: (" WEAPONS ".data ++ ']' :: []))
        = '#' :: '#' :: '#' :: ' ' :: stripWs " WEAPONS ".data
    ∧ promoteLine ('M' :: ("aps".data ++ ':' :: []))
        = '#' :: '#' :: '#' :: '#' :: ' ' :: stripWs ('M' :: "aps".data) := by
  constructor
  · exact post_pass_promotions.1 " WEAPONS ".data [] (by decide) (by decide)
  · exact post_pass_promotions.2.1 'M' "aps".data [] (by decide) (by decide) (by decide)
      (by decide) (by decide) (by decide)

/-- C7: saving any cursor state and loading the untouched file back gives
the same state. -/
theorem save_then_load_roundtrip (s : StateObj) (h : ValidState s) :
    load_state (some (save_state s)) = s := by
  simp only [load_state, save_state, parseState_renderState s h, Option.getD_some]

theorem save_then_load_roundtrip_witness :
    load_state (some (save_state [(STATE_KEY, (1715000000 : Int))]))
      = [(STATE_KEY, (1715000000 : Int))] :=
  save_then_load_roundtrip [(STATE_KEY, (1715000000 : Int))] (by decide)

/-- C8, counterexample: the claim says unknown extra keys are dropped by
the next save; but a state file containing only `"foo": 7` is loaded with
that key kept, and after `set_last_processed_posttime` the saved file
still contains it alongside the modeled key. -/
theorem extra_keys_survive_save :
    ("foo", (7 : Int)) ∈
        set_last_processed_posttime (load_state (some (save_state [("foo", (7 : Int))]))) 5
    ∧ parseState (save_state
        (set_last_processed_posttime (load_state (some (save_state [("foo", (7 : Int))]))) 5))
        = some [("foo", (7 : Int)), (STATE_KEY, (5 : Int))]
    ∧ "foo" ≠ STATE_KEY := by decide

/-- C8, amended: unknown extra keys are preserved — `load_state` returns
the whole decoded dict, `set_last_processed_posttime` touches only the
modeled key, and `save_state` writes the whole dict, so an extra key
survives the next save/load round trip. -/
theorem extra_keys_preserved (s : StateObj) (t : Int) (k : String) (v : Int)
    (hs : ValidState s) (hk : k ≠ STATE_KEY) (hmem : (k, v) ∈ s) :
    (k, v) ∈ set_last_processed_posttime s t
    ∧ load_state (some (save_state (set_last_processed_posttime s t)))
        = set_last_processed_posttime s t :=
  ⟨mem_set_last s t k v hk hmem,
   by simp only [load_state, save_state,
        parseState_renderState _ (validState_set s t hs), Option.getD_some]⟩

theorem extra_keys_preserved_witness :
    ("foo", (7 : Int)) ∈ set_last_processed_posttime [("foo", (7 : Int))] 5
    ∧ load_state (some (save_state (set_last_processed_posttime [("foo", (7 : Int))] 5)))
        = set_last_processed_posttime [("foo", (7 : Int))] 5 :=
  extra_keys_preserved [("foo", (7 : Int))] 5 "foo" 7 (by decide) (by decide) (by decide)

/-- C9: a fetch returns at most one event; any returned event is a newest
parsed event of the batch; a returned event is strictly newer than a set
cursor; and when every parsed event is at most as new as the cursor — in
particular a re-fetch of the already-processed newest event with equal
timestamp — nothing is returned. -/
theorem at_most_one_newest_event :
    (∀ (o : FetchOutcome) (lastT : Option Int), (fetch_latest_events o lastT).length ≤ 1)
    ∧ (∀ (o : FetchOutcome) (lastT : Option Int) (e : ParsedSteamEvent),
        e ∈ fetch_latest_events o lastT → ∀ p ∈ parsedBatch o, p.timestamp ≤ e.timestamp)
    ∧ (∀ (o : FetchOutcome) (t : Int) (e : ParsedSteamEvent),
        e ∈ fetch_latest_events o (some t) → t < (e.timestamp : Int))
    ∧ (∀ (o : FetchOutcome) (t : Int), (∀ p ∈ parsedBatch o, (p.timestamp : Int) ≤ t) →
        fetch_latest_events o (some t) = []) := by
  refine ⟨?_, ?_, ?_, ?_⟩
  · intro o lastT
    rcases fetch_cases o lastT with h | ⟨e, h, _, _, _⟩
    · simp [h]
    · simp [h]
  · intro o lastT e he p hp
    rcases fetch_cases o lastT with h | ⟨e', h, _, _, hmax⟩
    · rw [h] at he
      simp at he
    · rw [h] at he
      simp at he
      subst he
      exact hmax p hp
  · intro o t e he
    rcases fetch_cases o (some t) with h | ⟨e', h, _, hstrict, _⟩
    · rw [h] at he
      simp at he
    · rw [h] at he
      simp at he
      subst he
      exact hstrict t rfl
  · intro o t hall
    rcases fetch_cases o (some t) with h | ⟨e, h, hmem, hstrict, _⟩
    · exact h
    · have hlt := hstrict t rfl
      have hle := hall e hmem
      omega

theorem at_most_one_newest_event_witness :
    fetch_latest_events
        (.payload (some 1) [.evt (some ⟨some "g", some "update x", some 1000, some "b"⟩)])
        (some 1000) = [] :=
  at_most_one_newest_event.2.2.2 _ 1000 (by decide)

/-- C10: `fetch_latest_events` returns a plain (possibly empty) list on
every interface outcome: an HTTP status error, a transport error, a
payload whose success flag is not 1, and a raising entry inside the batch
(which only removes that entry); every raised exception in the body is
caught by the wrapper, which then returns `[]`. -/
theorem fetch_total_at_interface :
    (∀ lastT, fetch_latest_events .httpStatusError lastT = [])
    ∧ (∀ lastT, fetch_latest_events .networkError lastT = [])
    ∧ (∀ (success : Option Int) (events : List EventData) (lastT : Option Int),
        success ≠ some 1 → fetch_latest_events (.payload success events) lastT = [])
    ∧ (∀ (success : Option Int) (evs1 evs2 : List EventData) (lastT : Option Int),
        fetch_latest_events (.payload success (evs1 ++ EventData.poison :: evs2)) lastT
          = fetch_latest_events (.payload success (evs1 ++ evs2)) lastT)
    ∧ (∀ (o : FetchOutcome) (lastT : Option Int),
        (∃ l, fetchBody o lastT = .ok l ∧ fetch_latest_events o lastT = l)
        ∨ (∃ err, fetchBody o lastT = .error err ∧ fetch_latest_events o lastT = [])) := by
  refine ⟨fun _ => rfl, fun _ => rfl, ?_, ?_, ?_⟩
  · intro success events lastT h
    simp [fetch_latest_events, fetchBody, h]
  · intro success evs1 evs2 lastT
    have hfm : (evs1 ++ EventData.poison :: evs2).filterMap parse_event_data
        = (evs1 ++ evs2).filterMap parse_event_data := by
      simp [List.filterMap_append, List.filterMap_cons, parse_event_data]
    simp [fetch_latest_events, fetchBody, hfm]
  · intro o lastT
    cases hb : fetchBody o lastT with
    | ok l => exact Or.inl ⟨l, rfl, by simp [fetch_latest_events, hb]⟩
    | error err => exact Or.inr ⟨err, rfl, by simp [fetch_latest_events, hb]⟩

theorem fetch_total_at_interface_witness :
    fetch_latest_events (.payload (some 0) [EventData.poison]) none = [] :=
  fetch_total_at_interface.2.2.1 (some 0) [EventData.poison] none (by decide)

end CS2Poster
